import Mathlib

/-!
Verification of the door-monitor component (`real_bot/cogs/monitor.py`).

The Python module is embedded shallowly:
* the history log `self.history : List[Tuple[int, str]]` becomes `List (Int × String)`;
* the guild → status-message dict `self.messages` becomes an insertion-ordered
  association list `List (Int × Embed)`, where a message is identified with the
  embed it currently displays;
* `send_announcement` (the tick of the polling loop) becomes a pure function of
  the fetch outcome, the current timestamp, an edit-success oracle (a message
  edit that raises aborts the tick, as the Python loop has no try/except) and
  the state;
* Python's dynamic typing in `link_channel` (where `val` is either the stored
  state string or the boolean `False`) is modelled by `PyVal` together with
  Python truthiness;
* Python list slicing with possibly negative bounds, used by `get_page`, is
  modelled by `pySlice`.
-/

namespace AcmBot

/-- The dict `m = {False: "Closed", True: "Open"}` of `send_announcement`. -/
def m (door_open : Bool) : String := if door_open then "Open" else "Closed"

/-- A Python value that is either a `bool` or a `str`: in `link_channel`,
`val` is `self.history[-1][1]` (a string) when the history is non-empty and
the boolean `False` otherwise, and is then passed to `create_status_embed`. -/
inductive PyVal where
  | bool (b : Bool)
  | str (s : String)
deriving DecidableEq, Repr

/-- Python truthiness: a `bool` is itself, a `str` is truthy iff non-empty. -/
def pyTruthy : PyVal → Bool
  | .bool b => b
  | .str s => !(s == "")

/-- The discord colours used by the module. -/
inductive Colour where
  | green
  | red
  | blurple
deriving DecidableEq, Repr

/-- The observable content of a discord embed built by the module. -/
structure Embed where
  title : String
  color : Colour
  description : String
  footer : String := ""
deriving DecidableEq, Repr

/-- `create_status_embed`: green "now open" embed when `door_open` is truthy,
red "now closed" embed otherwise.  The Python function annotates `door_open`
as `bool`, but `link_channel` may pass it a string, so the parameter is a
`PyVal` tested with Python truthiness, exactly as `if door_open:` does. -/
def create_status_embed (now : Int) (door_open : PyVal) : Embed :=
  if pyTruthy door_open then
    { title := "CS Club Door Status", color := .green,
      description := "MQH 227 is now open - <t:" ++ toString now ++ ">" }
  else
    { title := "CS Club Door Status", color := .red,
      description := "MQH 227 is now closed - <t:" ++ toString now ++ ">" }

/-- The mutable state of the `Monitor` cog: the `messages` dict (insertion
ordered, as Python dicts are) and the `history` list. -/
structure MonitorState where
  messages : List (Int × Embed)
  history : List (Int × String)
deriving DecidableEq, Repr

/-- Outcome of one `send_announcement` call: the new state, the guild ids whose
status message was successfully edited (in iteration order), the records
appended to the history this tick, and whether a message edit raised (which
aborts the tick before the append). -/
structure TickResult where
  state : MonitorState
  edits : List Int
  appended : List (Int × String)
  failed : Bool
deriving DecidableEq, Repr

/-- The `try/except` around the fetch: on any failure `door_open = False`. -/
def observe : Except String Bool → Bool
  | .ok b => b
  | .error _ => false

/-- The `for guild in self.messages:` loop of `send_announcement`.  Each
iteration replaces the stored message with one displaying `emb`; if an edit
raises (`editOk g = false`) the exception propagates, so the remaining
messages are untouched and the loop reports failure.  Returns the updated
dict, the successfully edited guild ids in order, and the failure flag. -/
def editLoop (emb : Embed) (editOk : Int → Bool) :
    List (Int × Embed) → List (Int × Embed) × List Int × Bool
  | [] => ([], [], false)
  | (g, msg) :: rest =>
    if editOk g then
      let r := editLoop emb editOk rest
      ((g, emb) :: r.1, g :: r.2.1, r.2.2)
    else ((g, msg) :: rest, [], true)

/-- `if len(self.history) > self.max_history_len: self.history = self.history[1:]`. -/
def trimHistory (max_history_len : Nat) (h : List (Int × String)) : List (Int × String) :=
  if h.length > max_history_len then h.drop 1 else h

/-- `send_announcement`: observe the door (fail-safe closed); if the history is
non-empty and its last record has the observed state, do nothing; otherwise
edit every linked guild's status message in order and, if no edit raised,
append `(now, state)` to the history and trim it to `max_history_len`. -/
def send_announcement (max_history_len : Nat) (fetch : Except String Bool)
    (now : Int) (editOk : Int → Bool) (st : MonitorState) : TickResult :=
  let door_open := observe fetch
  if st.history.getLast?.map Prod.snd = some (m door_open) then
    ⟨st, [], [], false⟩
  else
    let emb := create_status_embed now (.bool door_open)
    let r := editLoop emb editOk st.messages
    if r.2.2 then
      ⟨⟨r.1, st.history⟩, r.2.1, [], true⟩
    else
      ⟨⟨r.1, trimHistory max_history_len (st.history ++ [(now, m door_open)])⟩,
        r.2.1, [(now, m door_open)], false⟩

/-- Python dict assignment `self.messages[g] = v` on an insertion-ordered
association list: overwrite in place if the key is present, else append. -/
def setAssoc (g : Int) (v : Embed) : List (Int × Embed) → List (Int × Embed)
  | [] => [(g, v)]
  | (g', v') :: rest => if g' = g then (g, v) :: rest else (g', v') :: setAssoc g v rest

/-- A resolved text channel (only its mention is observable here). -/
structure TextChannel where
  mention : String
deriving DecidableEq, Repr

/-- `link_channel`: when discord could not resolve the channel the argument is
the raw string and the command only reports the failure; otherwise `val` is
the last record's state string (or the boolean `False` on empty history), a
status embed is rendered from it, sent, and stored under the guild id.
Returns the new state and the reply text sent to the invoking context. -/
def link_channel (now : Int) (guild_id : Int) (channel : TextChannel ⊕ String)
    (st : MonitorState) : MonitorState × String :=
  match channel with
  | .inr name =>
    (st, "Sorry, couldn't find the channel " ++ name ++
      ". Please try again, and make sure there aren't any typos.")
  | .inl ch =>
    let val : PyVal :=
      match st.history.getLast? with
      | some last => .str last.2
      | none => .bool false
    let emb := create_status_embed now val
    (⟨setAssoc guild_id emb st.messages, st.history⟩,
      "Now using " ++ ch.mention ++ " as the place to send announcements")

/-- Python index normalisation for a slice bound: a negative bound counts from
the end (clamped below at 0), a non-negative one is clamped above at `len`. -/
def pyIdx (len : Nat) (i : Int) : Nat :=
  if i < 0 then ((len : Int) + i).toNat else min i.toNat len

/-- Python list slicing `l[a:b]` with integer (possibly negative) bounds. -/
def pySlice {α : Type} (l : List α) (a b : Int) : List α :=
  (l.take (pyIdx l.length b)).drop (pyIdx l.length a)

/-- The record sequence displayed by `get_page(page)`, newest first:
`reversed(self.history[start:end])` with
`start = -(page + 1) * num_per_page` and
`end = -page * num_per_page if page != 0 else len(self.history)`. -/
def get_page_records (num_per_page : Nat) (history : List (Int × String))
    (page : Int) : List (Int × String) :=
  (pySlice history (-(page + 1) * (num_per_page : Int))
    (if page ≠ 0 then -page * (num_per_page : Int) else (history.length : Int))).reverse

/-- `get_total_pages`: `len // n + (1 if len % n != 0 else 0)`. -/
def get_total_pages (num_per_page : Nat) (history : List (Int × String)) : Nat :=
  history.length / num_per_page +
    (if history.length % num_per_page ≠ 0 then 1 else 0)

/-- The embed built by `get_page`: one line per record, newest at the top,
with the footer `Showing page page+1/total`. -/
def get_page (num_per_page : Nat) (history : List (Int × String)) (page : Int) : Embed :=
  { title := "Door History", color := .blurple,
    description := String.join ((get_page_records num_per_page history page).map
      (fun r => (if r.2 == "Open" then ":unlock:" else ":lock:") ++ " " ++ r.2 ++
        " - <t:" ++ toString r.1 ++ ">\n")),
    footer := "Showing page " ++ toString (page + 1) ++ "/" ++
      toString (get_total_pages num_per_page history) }

/-- Run `send_announcement` over a list of (fetched door state, timestamp)
observations with all message edits succeeding, also collecting every record
the ticks appended, in order. -/
def runTicks (max_history_len : Nat) (st : MonitorState) :
    List (Bool × Int) → MonitorState × List (Int × String)
  | [] => (st, [])
  | (b, t) :: rest =>
    let r := send_announcement max_history_len (.ok b) t (fun _ => true) st
    let tail := runTicks max_history_len r.state rest
    (tail.1, r.appended ++ tail.2)

/-! ### Helper lemmas -/

/-- When every edit succeeds, the loop replaces every stored message with the
new embed, reports every guild edited in order, and does not fail. -/
theorem editLoop_allOk (emb : Embed) (l : List (Int × Embed)) :
    editLoop emb (fun _ => true) l =
      (l.map (fun x => (x.1, emb)), l.map Prod.fst, false) := by
  induction l with
  | nil => rfl
  | cons hd tl ih => simp [editLoop, ih]

/-- If every destination before `g` edits fine and `g`'s edit raises, the loop
stops at `g`: earlier messages are replaced, `g` and everything after it keep
their old messages, and the loop reports failure. -/
theorem editLoop_abort (emb : Embed) (editOk : Int → Bool)
    (pre : List (Int × Embed)) (g : Int) (msg : Embed) (post : List (Int × Embed))
    (hpre : ∀ x ∈ pre, editOk x.1 = true) (hg : editOk g = false) :
    editLoop emb editOk (pre ++ (g, msg) :: post) =
      (pre.map (fun x => (x.1, emb)) ++ (g, msg) :: post, pre.map Prod.fst, true) := by
  induction pre with
  | nil => simp [editLoop, hg]
  | cons hd tl ih =>
    have hhd : editOk hd.1 = true := hpre hd (by simp)
    have ih' := ih (fun x hx => hpre x (by simp [hx]))
    simp [editLoop, hhd, ih']

/-- Trimming only evicts from the front, so the last element of the history
after an append is the appended record (as long as the bound is positive). -/
theorem trimHistory_getLast? (max_history_len : Nat) (hmax : 1 ≤ max_history_len)
    (h : List (Int × String)) (x : Int × String) :
    (trimHistory max_history_len (h ++ [x])).getLast? = some x := by
  unfold trimHistory
  split
  · cases h with
    | nil => simp_all
    | cons hd tl => simp [List.getLast?_append]
  · simp [List.getLast?_append]

/-! ### C7 -/

/-- C7: a fetch failure is handled locally and the tick behaves exactly as if
it had observed `door_open = false`: for every error, timestamp, edit oracle
and state, `send_announcement` on the failed fetch returns the same result
(same new state, same edits, same appends) as on a successful fetch of
`false`, so the failure is never surfaced to any destination and the rest of
the tick (debounce, announcement, append) proceeds with state Closed. -/
theorem fetch_failure_treated_as_closed (max_history_len : Nat) (e : String)
    (now : Int) (editOk : Int → Bool) (st : MonitorState) :
    send_announcement max_history_len (.error e) now editOk st =
      send_announcement max_history_len (.ok false) now editOk st := rfl

/-! ### C8 -/

/-- C8: linking an unresolved destination (the argument stayed a raw string)
leaves the whole state — in particular the `messages` registry — unchanged
and replies with a user-facing failure that names the channel that could not
be found. -/
theorem link_unresolved_leaves_registry (now guild_id : Int) (name : String)
    (st : MonitorState) :
    link_channel now guild_id (.inr name) st =
      (st, "Sorry, couldn't find the channel " ++ name ++
        ". Please try again, and make sure there aren't any typos.") := rfl

/-! ### C4 -/

/-- C4: the claim says `link` renders the state of the last HistoryRecord as
the initial status view. The code is wrong: it passes the stored state
*string* to `create_status_embed`, whose `if door_open:` test treats every
non-empty string — including `"Closed"` — as truthy. With history ending in
a `"Closed"` record, the stored initial view is the green "now open" embed,
while an empty history correctly yields the red "now closed" embed. The
handle is stored under the guild id as claimed; only the rendering is wrong. -/
theorem link_channel_truthiness_bug :
    (create_status_embed 9 (.str "Closed")).color = Colour.green ∧
    (link_channel 9 1 (.inl ⟨"#general"⟩)
        ⟨[], [(5, "Closed")]⟩).1.messages =
      [(1, { title := "CS Club Door Status", color := .green,
             description := "MQH 227 is now open - <t:9>" })] ∧
    (link_channel 9 1 (.inl ⟨"#general"⟩) ⟨[], []⟩).1.messages =
      [(1, { title := "CS Club Door Status", color := .red,
             description := "MQH 227 is now closed - <t:9>" })] := by
  refine ⟨rfl, ?_, ?_⟩ <;> rfl

/-! ### C5 -/

/-- C5 fails on the code: destinations are NOT processed independently. With
two linked guilds, a failing edit on the first (guild 1) aborts the whole
tick: guild 2's message is not updated, nothing is appended to the history,
and the tick reports failure — while the very same tick with all edits
succeeding updates guild 2 and appends the record. -/
theorem tick_edit_failure_counterexample :
    (send_announcement 1000 (.ok true) 7 (fun g => g != 1)
        ⟨[(1, { title := "t", color := .red, description := "d1" }),
          (2, { title := "t", color := .red, description := "d2" })],
         [(0, "Closed")]⟩ =
      ⟨⟨[(1, { title := "t", color := .red, description := "d1" }),
         (2, { title := "t", color := .red, description := "d2" })],
        [(0, "Closed")]⟩, [], [], true⟩) ∧
    (send_announcement 1000 (.ok true) 7 (fun _ => true)
        ⟨[(1, { title := "t", color := .red, description := "d1" }),
          (2, { title := "t", color := .red, description := "d2" })],
         [(0, "Closed")]⟩ =
      ⟨⟨[(1, create_status_embed 7 (.bool true)),
         (2, create_status_embed 7 (.bool true))],
        [(0, "Closed"), (7, "Open")]⟩, [1, 2], [(7, "Open")], false⟩) := by
  exact ⟨rfl, rfl⟩

/-- C5 amended: during a tick announcing a genuine transition, destinations
are processed sequentially without isolation. If every destination before
`g` edits fine and `g`'s edit fails, then the tick aborts: destinations
before `g` keep their updated messages, `g` and all later destinations are
left with their old messages, and no HistoryRecord is appended. -/
theorem tick_edit_failure_aborts (max_history_len : Nat)
    (fetch : Except String Bool) (now : Int) (editOk : Int → Bool)
    (pre : List (Int × Embed)) (g : Int) (msg : Embed) (post : List (Int × Embed))
    (st : MonitorState) (hmsgs : st.messages = pre ++ (g, msg) :: post)
    (hpre : ∀ x ∈ pre, editOk x.1 = true) (hg : editOk g = false)
    (hdeb : ¬ st.history.getLast?.map Prod.snd = some (m (observe fetch))) :
    send_announcement max_history_len fetch now editOk st =
      ⟨⟨pre.map (fun x => (x.1, create_status_embed now (.bool (observe fetch)))) ++
          (g, msg) :: post, st.history⟩,
        pre.map Prod.fst, [], true⟩ := by
  unfold send_announcement
  rw [if_neg hdeb, hmsgs]
  simp only [editLoop_abort _ _ _ _ _ _ hpre hg, if_true]

/-- Witness for `tick_edit_failure_aborts` at a concrete input. -/
theorem tick_edit_failure_aborts_witness :
    send_announcement 5 (.ok true) 3 (fun g => g != 2)
        ⟨[(1, { title := "t", color := .red, description := "a" }),
          (2, { title := "t", color := .red, description := "b" }),
          (3, { title := "t", color := .red, description := "c" })],
         []⟩ =
      ⟨⟨[(1, create_status_embed 3 (.bool true)),
         (2, { title := "t", color := .red, description := "b" }),
         (3, { title := "t", color := .red, description := "c" })],
        []⟩, [1], [], true⟩ := by
  exact tick_edit_failure_aborts 5 (.ok true) 3 (fun g => g != 2)
    [(1, { title := "t", color := .red, description := "a" })] 2
    { title := "t", color := .red, description := "b" }
    [(3, { title := "t", color := .red, description := "c" })]
    ⟨[(1, { title := "t", color := .red, description := "a" }),
      (2, { title := "t", color := .red, description := "b" }),
      (3, { title := "t", color := .red, description := "c" })], []⟩
    rfl (by decide) rfl (by decide)

/-- Debounce branch of `send_announcement`: when the history is non-empty and
its last record already has the observed state, the tick returns the state
unchanged with no edits and no appends. -/
theorem tick_debounced (max_history_len : Nat) (fetch : Except String Bool)
    (now : Int) (editOk : Int → Bool) (st : MonitorState)
    (h : st.history.getLast?.map Prod.snd = some (m (observe fetch))) :
    send_announcement max_history_len fetch now editOk st = ⟨st, [], [], false⟩ := by
  unfold send_announcement
  rw [if_pos h]

/-- After any successful-fetch tick with all edits succeeding (and a positive
bound), the last history record's state is the observed state. -/
theorem tick_ok_getLast (max_history_len : Nat) (hmax : 1 ≤ max_history_len)
    (b : Bool) (now : Int) (st : MonitorState) :
    ((send_announcement max_history_len (.ok b) now
        (fun _ => true) st).state).history.getLast?.map Prod.snd = some (m b) := by
  simp only [send_announcement, observe, editLoop_allOk]
  split
  · next h => exact h
  · next h =>
    simp [trimHistory_getLast? _ hmax]

/-- A non-debounced tick with all edits succeeding appends exactly the one
record `(now, state)`. -/
theorem tick_ok_appended (max_history_len : Nat) (b : Bool) (now : Int)
    (st : MonitorState)
    (h : ¬ st.history.getLast?.map Prod.snd = some (m b)) :
    (send_announcement max_history_len (.ok b) now (fun _ => true) st).appended =
      [(now, m b)] := by
  simp only [send_announcement, observe, editLoop_allOk]
  rw [if_neg h]
  simp

/-! ### C2 -/

/-- C2: debounce. First conjunct: whenever the history is non-empty and the
observed state equals the most recent record's state, `send_announcement` is
a no-op — the state (so also every destination's message) is unchanged and
nothing is appended. Second conjunct: after any tick observing state `b`,
a second tick observing `b` is always such a no-op (the bound must be
positive, as the Python default 1000 is). Third conjunct: when the first of
the two ticks is a genuine transition, the pair appends exactly one history
record in total, and (by the second conjunct) only the first tick edits any
destination, so at most one announcement is made. -/
theorem debounce_no_op (max_history_len : Nat) (hmax : 1 ≤ max_history_len)
    (fetch : Except String Bool) (now now2 : Int) (editOk : Int → Bool)
    (b : Bool) (st : MonitorState) :
    (st.history.getLast?.map Prod.snd = some (m (observe fetch)) →
      send_announcement max_history_len fetch now editOk st = ⟨st, [], [], false⟩) ∧
    (send_announcement max_history_len (.ok b) now2 (fun _ => true)
        (send_announcement max_history_len (.ok b) now (fun _ => true) st).state =
      ⟨(send_announcement max_history_len (.ok b) now (fun _ => true) st).state,
        [], [], false⟩) ∧
    (¬ st.history.getLast?.map Prod.snd = some (m b) →
      (send_announcement max_history_len (.ok b) now (fun _ => true) st).appended ++
        (send_announcement max_history_len (.ok b) now2 (fun _ => true)
          (send_announcement max_history_len (.ok b) now
            (fun _ => true) st).state).appended =
        [(now, m b)]) := by
  have h2 : send_announcement max_history_len (.ok b) now2 (fun _ => true)
      (send_announcement max_history_len (.ok b) now (fun _ => true) st).state =
      ⟨(send_announcement max_history_len (.ok b) now (fun _ => true) st).state,
        [], [], false⟩ :=
    tick_debounced _ _ _ _ _ (tick_ok_getLast max_history_len hmax b now st)
  refine ⟨fun h => tick_debounced _ _ _ _ _ h, h2, fun h => ?_⟩
  rw [tick_ok_appended _ _ _ _ h, h2]
  rfl

/-- Witness for `debounce_no_op` at a concrete input: history ends `Closed`,
so observing `Closed` again is a no-op, while two consecutive observations of
`Open` append exactly the one record `(1, "Open")`. -/
theorem debounce_no_op_witness :
    (send_announcement 3 (.ok false) 1 (fun _ => true) ⟨[], [(0, "Closed")]⟩ =
      ⟨⟨[], [(0, "Closed")]⟩, [], [], false⟩) ∧
    ((send_announcement 3 (.ok true) 1 (fun _ => true) ⟨[], [(0, "Closed")]⟩).appended ++
      (send_announcement 3 (.ok true) 2 (fun _ => true)
        (send_announcement 3 (.ok true) 1 (fun _ => true)
          ⟨[], [(0, "Closed")]⟩).state).appended =
      [(1, "Open")]) := by
  obtain ⟨h1, h2, h3⟩ := debounce_no_op 3 (by decide) (.ok false) 1 2 (fun _ => true) true
    ⟨[], [(0, "Closed")]⟩
  exact ⟨h1 rfl, h3 (by decide)⟩

/-! ### Pagination helper lemmas -/

/-- A normalised Python slice bound never exceeds the list length. -/
theorem pyIdx_le (L : Nat) (i : Int) : pyIdx L i ≤ L := by
  unfold pyIdx; split <;> omega

/-- A non-negative slice bound is clamped above at the length. -/
theorem pyIdx_coe (L x : Nat) : pyIdx L (x : Int) = min x L := by
  unfold pyIdx; rw [if_neg (by omega)]; omega

/-- A negative slice bound counts from the end, clamped below at 0. -/
theorem pyIdx_neg (L x : Nat) (hx : 1 ≤ x) : pyIdx L (-(x : Int)) = L - x := by
  unfold pyIdx; rw [if_pos (by omega)]; omega

/-- A bound at or below `-len` normalises to 0. -/
theorem pyIdx_eq_zero {L : Nat} {i : Int} (h : (L : Int) + i ≤ 0) : pyIdx L i = 0 := by
  unfold pyIdx; split <;> omega

/-- Length of a Python slice. -/
theorem length_pySlice {α : Type} (l : List α) (a b : Int) :
    (pySlice l a b).length = pyIdx l.length b - pyIdx l.length a := by
  have hb := pyIdx_le l.length b
  simp [pySlice, List.length_drop, List.length_take]
  omega

/-- `get_total_pages` pages suffice to cover the whole history. -/
theorem length_le_total_pages_mul (num_per_page : Nat) (hn : 1 ≤ num_per_page)
    (hist : List (Int × String)) :
    hist.length ≤ get_total_pages num_per_page hist * num_per_page := by
  unfold get_total_pages
  have h1 := Nat.div_add_mod hist.length num_per_page
  have h2 : hist.length % num_per_page < num_per_page := Nat.mod_lt _ (by omega)
  split
  · have : (hist.length / num_per_page + 1) * num_per_page =
        num_per_page * (hist.length / num_per_page) + num_per_page := by ring
    omega
  · have : (hist.length / num_per_page + 0) * num_per_page =
        num_per_page * (hist.length / num_per_page) := by ring
    omega

/-! ### C9 -/

/-- C9: out-of-range and negative pages. For every page index at or beyond
`get_total_pages`, `get_page` lists no records and its description is empty —
the request degrades to an empty page rather than an error. Moreover for
every integer page index whatsoever (negative ones included) the function is
total and lists at most `num_per_page` records, so no index crashes it. -/
theorem page_out_of_range (num_per_page : Nat) (hist : List (Int × String))
    (hn : 1 ≤ num_per_page) :
    (∀ p : Int, (get_total_pages num_per_page hist : Int) ≤ p →
      get_page_records num_per_page hist p = [] ∧
      (get_page num_per_page hist p).description = "") ∧
    (∀ p : Int, (get_page_records num_per_page hist p).length ≤ num_per_page) := by
  constructor
  · intro p hp
    have hrec : get_page_records num_per_page hist p = [] := by
      by_cases hp0 : p = 0
      · subst hp0
        have hT : get_total_pages num_per_page hist = 0 := by omega
        have hle := length_le_total_pages_mul num_per_page hn hist
        rw [hT] at hle
        have : hist = [] := List.eq_nil_of_length_eq_zero (by omega)
        subst this
        simp [get_page_records, pySlice]
      · unfold get_page_records
        rw [if_pos hp0]
        have h1 : (hist.length : Int) ≤
            (get_total_pages num_per_page hist : Int) * num_per_page := by
          exact_mod_cast length_le_total_pages_mul num_per_page hn hist
        have h2 : (get_total_pages num_per_page hist : Int) * num_per_page ≤
            p * num_per_page :=
          mul_le_mul_of_nonneg_right hp (by positivity)
        have h3 : (hist.length : Int) + -p * (num_per_page : Int) ≤ 0 := by linarith
        unfold pySlice
        rw [pyIdx_eq_zero h3]
        simp
    exact ⟨hrec, by simp [get_page, hrec]; rfl⟩
  · intro p
    rcases lt_trichotomy p 0 with hp | hp | hp
    · obtain ⟨k, rfl⟩ : ∃ k : Nat, p = -((k : Int)) - 1 := ⟨(-p - 1).toNat, by omega⟩
      unfold get_page_records
      rw [if_pos (by omega : -((k : Int)) - 1 ≠ 0)]
      rw [List.length_reverse, length_pySlice]
      have e1 : (-(-((k : Int)) - 1 + 1) * (num_per_page : Int)) =
          ((k * num_per_page : Nat) : Int) := by push_cast; ring
      have e2 : (-(-((k : Int)) - 1) * (num_per_page : Int)) =
          (((k + 1) * num_per_page : Nat) : Int) := by push_cast; ring
      rw [e1, e2, pyIdx_coe, pyIdx_coe]
      have : (k + 1) * num_per_page = k * num_per_page + num_per_page := by ring
      omega
    · subst hp
      unfold get_page_records
      rw [if_neg (by simp)]
      rw [List.length_reverse, length_pySlice, pyIdx_coe]
      have e1 : (-((0 : Int) + 1) * (num_per_page : Int)) =
          -((num_per_page : Nat) : Int) := by
        push_cast; ring
      rw [e1, pyIdx_neg _ _ hn]
      omega
    · obtain ⟨k, rfl⟩ : ∃ k : Nat, p = ((k : Int)) + 1 := ⟨(p - 1).toNat, by omega⟩
      unfold get_page_records
      rw [if_pos (by omega : ((k : Int)) + 1 ≠ 0)]
      rw [List.length_reverse, length_pySlice]
      have e1 : (-(((k : Int)) + 1 + 1) * (num_per_page : Int)) =
          -(((k + 2) * num_per_page : Nat) : Int) := by push_cast; ring
      have e2 : (-(((k : Int)) + 1) * (num_per_page : Int)) =
          -(((k + 1) * num_per_page : Nat) : Int) := by push_cast; ring
      rw [e1, e2, pyIdx_neg _ _ (Nat.mul_pos (by omega) hn),
        pyIdx_neg _ _ (Nat.mul_pos (by omega) hn)]
      have : (k + 2) * num_per_page = (k + 1) * num_per_page + num_per_page := by ring
      omega

/-- Witness for `page_out_of_range`: with one record and one record per page,
page 5 is empty, and page -3 lists at most one record. -/
theorem page_out_of_range_witness :
    get_page_records 1 [(1, "Open")] 5 = [] ∧
    (get_page_records 1 [(1, "Open")] (-3)).length ≤ 1 := by
  obtain ⟨h1, h2⟩ := page_out_of_range 1 [(1, "Open")] (by decide)
  exact ⟨(h1 5 (by decide)).1, h2 (-3)⟩

/-- The window of page `p` (as a natural number) is exactly the slice of the
reversed history covering reversed-indices `[p*n, p*n + n)`, clipped. -/
theorem get_page_records_eq (num_per_page : Nat) (hn : 1 ≤ num_per_page)
    (hist : List (Int × String)) (p : Nat) :
    get_page_records num_per_page hist (p : Int) =
      (hist.reverse.drop (p * num_per_page)).take num_per_page := by
  cases p with
  | zero =>
    unfold get_page_records
    rw [if_neg (by simp)]
    unfold pySlice
    have e1 : (-(((0 : Nat) : Int) + 1) * (num_per_page : Int)) =
        -((num_per_page : Nat) : Int) := by push_cast; ring
    rw [e1, pyIdx_neg _ _ hn, pyIdx_coe, min_self, List.take_length]
    rw [List.reverse_drop]
    rw [Nat.zero_mul, List.drop_zero]
    rw [List.take_eq_take]
    simp [List.length_reverse]
    omega
  | succ k =>
    unfold get_page_records
    rw [if_pos (show ((k + 1 : Nat) : Int) ≠ 0 by
      exact_mod_cast Nat.succ_ne_zero k)]
    unfold pySlice
    have e1 : (-(((k + 1 : Nat) : Int) + 1) * (num_per_page : Int)) =
        -(((k + 2) * num_per_page : Nat) : Int) := by push_cast; ring
    have e2 : (-((k + 1 : Nat) : Int) * (num_per_page : Int)) =
        -(((k + 1) * num_per_page : Nat) : Int) := by push_cast; ring
    rw [e1, e2, pyIdx_neg _ _ (Nat.mul_pos (by omega) hn),
      pyIdx_neg _ _ (Nat.mul_pos (by omega) hn)]
    rw [List.reverse_drop, List.reverse_take]
    rw [List.length_take]
    have h2 : (k + 2) * num_per_page = (k + 1) * num_per_page + num_per_page := by ring
    by_cases hBL : (k + 1) * num_per_page ≤ hist.length
    · have hd : hist.length - (hist.length - (k + 1) * num_per_page) =
          (k + 1) * num_per_page := by omega
      rw [hd, List.take_eq_take]
      simp [List.length_drop, List.length_reverse]
      omega
    · rw [List.drop_eq_nil_of_le (by simp [List.length_reverse]; omega),
        List.drop_eq_nil_of_le (by simp [List.length_reverse]; omega)]
      simp

/-- `get_total_pages` computes the ceiling of `len / num_per_page`. -/
theorem get_total_pages_eq_ceil (num_per_page : Nat) (hn : 1 ≤ num_per_page)
    (hist : List (Int × String)) :
    get_total_pages num_per_page hist =
      (hist.length + num_per_page - 1) / num_per_page := by
  unfold get_total_pages
  have h1 := Nat.div_add_mod hist.length num_per_page
  have h2 : hist.length % num_per_page < num_per_page := Nat.mod_lt _ (by omega)
  have hL : hist.length + num_per_page - 1 =
      num_per_page * (hist.length / num_per_page) +
        (hist.length % num_per_page + num_per_page - 1) := by omega
  rw [hL, Nat.mul_add_div (by omega)]
  congr 1
  split
  · next h =>
    exact (Nat.div_eq_of_lt_le (by omega) (by omega)).symm
  · next h =>
    have h0 : hist.length % num_per_page = 0 := by omega
    rw [h0]
    exact (Nat.div_eq_of_lt (by omega)).symm

/-- Concatenating the `ceil(len / n)` consecutive `n`-windows of any list
reconstructs the list. -/
theorem join_chunks {α : Type} (num_per_page : Nat) (hn : 1 ≤ num_per_page) :
    ∀ (N : Nat) (l : List α), l.length ≤ N →
      ((List.range ((l.length + num_per_page - 1) / num_per_page)).map
        (fun p => (l.drop (p * num_per_page)).take num_per_page)).flatten = l := by
  intro N
  induction N with
  | zero =>
    intro l hl
    have : l = [] := List.eq_nil_of_length_eq_zero (by omega)
    subst this
    have h0 : ((([] : List α).length + num_per_page - 1) / num_per_page) = 0 :=
      Nat.div_eq_of_lt (by simp; omega)
    rw [h0]
    simp
  | succ N ih =>
    intro l hl
    cases l with
    | nil =>
      have h0 : ((([] : List α).length + num_per_page - 1) / num_per_page) = 0 :=
        Nat.div_eq_of_lt (by simp; omega)
      rw [h0]
      simp
    | cons a t =>
      have hL1 : 1 ≤ (a :: t).length := by simp
      have hceil : ((a :: t).length + num_per_page - 1) / num_per_page =
          (((a :: t).length - num_per_page + num_per_page - 1) / num_per_page) + 1 := by
        by_cases hc : (a :: t).length ≤ num_per_page
        · rw [@Nat.div_eq_of_lt_le 1 num_per_page ((a :: t).length + num_per_page - 1)
            (by omega) (by omega)]
          have h0 : (a :: t).length - num_per_page = 0 := by omega
          rw [h0, Nat.div_eq_of_lt (by omega)]
        · have he : (a :: t).length + num_per_page - 1 =
              ((a :: t).length - num_per_page + num_per_page - 1) + num_per_page := by
            omega
          rw [he, Nat.add_div_right _ (by omega)]
      have hlen : ((a :: t).drop num_per_page).length =
          (a :: t).length - num_per_page := by
        simp [List.length_drop]
      have hmap : List.map (fun p => ((a :: t).drop (p * num_per_page)).take num_per_page)
          (List.map Nat.succ (List.range
            (((a :: t).length - num_per_page + num_per_page - 1) / num_per_page))) =
          List.map (fun p =>
            (((a :: t).drop num_per_page).drop (p * num_per_page)).take num_per_page)
          (List.range
            (((a :: t).length - num_per_page + num_per_page - 1) / num_per_page)) := by
        rw [List.map_map]
        apply List.map_congr_left
        intro p hp
        simp only [Function.comp_apply]
        rw [List.drop_drop]
        congr 2
        rw [Nat.succ_mul]
        omega
      have hih := ih ((a :: t).drop num_per_page) (by rw [hlen]; omega)
      rw [hlen] at hih
      rw [hceil, List.range_succ_eq_map, List.map_cons, List.flatten_cons, hmap, hih]
      simp only [Nat.zero_mul, List.drop_zero]
      exact List.take_append_drop _ _

/-! ### C3 -/

/-- C3: pagination round-trip. For every history and every positive page
size: `get_total_pages` is the ceiling of `len / num_per_page`; page `p`
lists exactly the records of the reversed (newest-first) history at
reversed-indices `[p*n, p*n + n)`, clipped to the available length; and
concatenating pages `0 .. totalPages - 1` reconstructs exactly the reversed
history — no duplicates, no gaps. -/
theorem pagination_roundtrip (num_per_page : Nat) (hist : List (Int × String))
    (hn : 1 ≤ num_per_page) :
    get_total_pages num_per_page hist =
      (hist.length + num_per_page - 1) / num_per_page ∧
    (∀ p : Nat, get_page_records num_per_page hist (p : Int) =
      (hist.reverse.drop (p * num_per_page)).take num_per_page) ∧
    ((List.range (get_total_pages num_per_page hist)).map
      (fun p : Nat => get_page_records num_per_page hist (p : Int))).flatten =
      hist.reverse := by
  refine ⟨get_total_pages_eq_ceil num_per_page hn hist,
    fun p => get_page_records_eq num_per_page hn hist p, ?_⟩
  have hmap : (List.range (get_total_pages num_per_page hist)).map
      (fun p : Nat => get_page_records num_per_page hist (p : Int)) =
      (List.range (get_total_pages num_per_page hist)).map
      (fun p : Nat => (hist.reverse.drop (p * num_per_page)).take num_per_page) :=
    List.map_congr_left (fun p _ => get_page_records_eq num_per_page hn hist p)
  rw [hmap, get_total_pages_eq_ceil num_per_page hn hist]
  have hrl : hist.length = hist.reverse.length := (List.length_reverse hist).symm
  rw [hrl]
  exact join_chunks num_per_page hn hist.reverse.length hist.reverse le_rfl

/-- Witness for `pagination_roundtrip`: three records, two per page. -/
theorem pagination_roundtrip_witness :
    get_total_pages 2 [(1, "Open"), (2, "Closed"), (3, "Open")] = 2 ∧
    get_page_records 2 [(1, "Open"), (2, "Closed"), (3, "Open")] ((1 : Nat) : Int) =
      [(1, "Open")] ∧
    ((List.range (get_total_pages 2 [(1, "Open"), (2, "Closed"), (3, "Open")])).map
      (fun p : Nat => get_page_records 2 [(1, "Open"), (2, "Closed"), (3, "Open")]
        (p : Int))).flatten =
      [(3, "Open"), (2, "Closed"), (1, "Open")] := by
  obtain ⟨h1, h2, h3⟩ := pagination_roundtrip 2 [(1, "Open"), (2, "Closed"), (3, "Open")]
    (by decide)
  refine ⟨by rw [h1]; rfl, ?_, by rw [h3]; rfl⟩
  rw [h2 1]
  rfl

/-- A non-debounced successful-fetch tick with all edits succeeding: every
message is replaced, the record is appended, the history trimmed. -/
theorem tick_not_debounced (max_history_len : Nat) (b : Bool) (now : Int)
    (st : MonitorState)
    (h : ¬ st.history.getLast?.map Prod.snd = some (m b)) :
    send_announcement max_history_len (.ok b) now (fun _ => true) st =
      ⟨⟨st.messages.map (fun x => (x.1, create_status_embed now (.bool b))),
        trimHistory max_history_len (st.history ++ [(now, m b)])⟩,
        st.messages.map Prod.fst, [(now, m b)], false⟩ := by
  simp only [send_announcement, observe, editLoop_allOk]
  rw [if_neg h]
  simp

/-- If the history is the length-clipped suffix of the append log `A`, then
after appending one record and trimming it is the clipped suffix of
`A ++ [x]`. -/
theorem trimHistory_drop (max_history_len : Nat) (A : List (Int × String))
    (x : Int × String) (h : List (Int × String))
    (hh : h = A.drop (A.length - max_history_len)) :
    trimHistory max_history_len (h ++ [x]) =
      (A ++ [x]).drop ((A ++ [x]).length - max_history_len) := by
  subst hh
  have hlen : (A.drop (A.length - max_history_len)).length =
      A.length - (A.length - max_history_len) := List.length_drop _ _
  have happ : A.drop (A.length - max_history_len) ++ [x] =
      (A ++ [x]).drop (A.length - max_history_len) :=
    (List.drop_append_of_le_length (by omega)).symm
  unfold trimHistory
  rw [happ]
  split
  · next hgt =>
    rw [List.drop_drop]
    simp only [List.length_drop, List.length_append, List.length_cons,
      List.length_nil] at hgt ⊢
    congr 1
    omega
  · next hle =>
    simp only [List.length_drop, List.length_append, List.length_cons,
      List.length_nil] at hle ⊢
    congr 1
    omega

/-- Invariant of the polling loop: if the current history is the clipped
suffix of the append log so far, then after any further observations the
history is the clipped suffix of the extended append log. -/
theorem runTicks_suffix (max_history_len : Nat) :
    ∀ (obs : List (Bool × Int)) (st : MonitorState) (A : List (Int × String)),
      st.history = A.drop (A.length - max_history_len) →
      (runTicks max_history_len st obs).1.history =
        (A ++ (runTicks max_history_len st obs).2).drop
          ((A ++ (runTicks max_history_len st obs).2).length - max_history_len) := by
  intro obs
  induction obs with
  | nil =>
    intro st A hA
    simpa [runTicks] using hA
  | cons ot rest ih =>
    obtain ⟨b, t⟩ := ot
    intro st A hA
    simp only [runTicks]
    by_cases hdeb : st.history.getLast?.map Prod.snd = some (m b)
    · rw [tick_debounced max_history_len (.ok b) t (fun _ => true) st hdeb]
      simpa using ih st A hA
    · rw [tick_not_debounced _ _ _ _ hdeb]
      have hA' : trimHistory max_history_len (st.history ++ [(t, m b)]) =
          (A ++ [(t, m b)]).drop ((A ++ [(t, m b)]).length - max_history_len) :=
        trimHistory_drop _ _ _ _ hA
      have hrec := ih ⟨st.messages.map (fun x => (x.1, create_status_embed t (.bool b))),
        trimHistory max_history_len (st.history ++ [(t, m b)])⟩ (A ++ [(t, m b)]) hA'
      simpa [List.append_assoc] using hrec

/-! ### C1 -/

/-- C1: bounded history. Starting from the initial (empty) history, for every
sequence of observed states fed to the tick, the history never exceeds
`max_history_len` entries, and it equals exactly the most recent
`max_history_len` of the records the ticks appended, in their original
insertion order — older appended records are evicted from the front, FIFO.
(`runTicks`'s second component is the full append log of the run.) -/
theorem history_bounded_suffix (max_history_len : Nat) (msgs : List (Int × Embed))
    (obs : List (Bool × Int)) :
    ((runTicks max_history_len ⟨msgs, []⟩ obs).1.history).length ≤ max_history_len ∧
    (runTicks max_history_len ⟨msgs, []⟩ obs).1.history =
      (runTicks max_history_len ⟨msgs, []⟩ obs).2.drop
        ((runTicks max_history_len ⟨msgs, []⟩ obs).2.length - max_history_len) := by
  have h := runTicks_suffix max_history_len obs ⟨msgs, []⟩ [] (by simp)
  refine ⟨?_, h⟩
  rw [h, List.length_drop]
  omega

/-- The polling loop preserves the pairwise-distinct-adjacent-states
invariant of the history. -/
theorem runTicks_chain (max_history_len : Nat) :
    ∀ (obs : List (Bool × Int)) (st : MonitorState),
      st.history.Chain' (fun a b => a.2 ≠ b.2) →
      ((runTicks max_history_len st obs).1.history).Chain' (fun a b => a.2 ≠ b.2) := by
  intro obs
  induction obs with
  | nil =>
    intro st hst
    simpa [runTicks] using hst
  | cons ot rest ih =>
    obtain ⟨b, t⟩ := ot
    intro st hst
    simp only [runTicks]
    by_cases hdeb : st.history.getLast?.map Prod.snd = some (m b)
    · rw [tick_debounced max_history_len (.ok b) t (fun _ => true) st hdeb]
      exact ih st hst
    · rw [tick_not_debounced _ _ _ _ hdeb]
      apply ih
      have hchain : (st.history ++ [(t, m b)]).Chain' (fun a b => a.2 ≠ b.2) := by
        rw [List.chain'_append]
        refine ⟨hst, List.chain'_singleton _, ?_⟩
        intro x hx y hy
        simp only [List.head?_cons, Option.mem_def, Option.some.injEq] at hy
        subst hy
        intro hxy
        apply hdeb
        rw [Option.mem_def] at hx
        rw [hx]
        simp [hxy]
      unfold trimHistory
      split
      · rw [List.drop_one]
        exact hchain.tail
      · exact hchain

/-! ### C10 -/

/-- C10: after any sequence of ticks starting from an empty history, no two
adjacent history records have the same state — a record is appended only
when the observed state differs from the last record's state, and front
eviction cannot create new adjacencies. -/
theorem adjacent_records_distinct (max_history_len : Nat) (msgs : List (Int × Embed))
    (obs : List (Bool × Int)) :
    ((runTicks max_history_len ⟨msgs, []⟩ obs).1.history).Chain'
      (fun a b => a.2 ≠ b.2) :=
  runTicks_chain max_history_len obs ⟨msgs, []⟩ (by simp)

end AcmBot
